import Mathlib

/-!
# Verification of `scripts/verify_linear_regression.py`

A shallow embedding of the numeric core of the repository's verification
script: least-squares linear regression, population standard deviation,
coefficient-of-variation confidence, trend classification, single-point
prediction and multi-period revenue forecasting.

Real numbers are modelled as rationals (`ℚ`).  Python's `math.sqrt` is the
single operation that leaves the rationals, so it is passed in as an abstract
function parameter `sqrt : ℚ → ℚ`; every theorem below holds for an arbitrary
`sqrt`, hence in particular for the real square root.  Python's built-in
`round` (round half to even, "banker's rounding") is modelled exactly by
`pyRound`.
-/

/-- Python's built-in one-argument `round`: round to the nearest integer,
ties going to the even neighbour (banker's rounding). -/
def pyRound (q : ℚ) : ℤ :=
  let f := ⌊q⌋
  let frac := q - f
  if frac < 1/2 then f
  else if 1/2 < frac then f + 1
  else if f % 2 = 0 then f else f + 1

/-- The script's two-decimal rounding idiom `round(x * 100) / 100`. -/
def roundTo2 (q : ℚ) : ℚ :=
  ((pyRound (q * 100) : ℤ) : ℚ) / 100

/-- `sum_x` accumulated by the loop in `linear_regression`:
the sum of the indices `0, 1, ..., n-1`. -/
def sum_x (values : List ℚ) : ℚ :=
  ((List.range values.length).map (fun i => (i : ℚ))).sum

/-- `sum_y` accumulated by the loop in `linear_regression`: the sum of the values. -/
def sum_y (values : List ℚ) : ℚ :=
  values.sum

/-- `sum_xy` accumulated by the loop in `linear_regression`:
the sum of `index * value` over the enumerated list. -/
def sum_xy (values : List ℚ) : ℚ :=
  (values.enum.map (fun p => (p.1 : ℚ) * p.2)).sum

/-- `sum_x2` accumulated by the loop in `linear_regression`:
the sum of the squared indices. -/
def sum_x2 (values : List ℚ) : ℚ :=
  ((List.range values.length).map (fun i => (i : ℚ) * (i : ℚ))).sum

/-- `linear_regression(values)`: least-squares fit of `y = slope·x + intercept`
with `x` the 0-based index.  Fewer than 2 points, or a zero denominator,
yield `(0, 0)`. -/
def linear_regression (values : List ℚ) : ℚ × ℚ :=
  if values.length < 2 then (0, 0)
  else
    let n : ℚ := values.length
    let denominator := n * sum_x2 values - sum_x values * sum_x values
    if denominator = 0 then (0, 0)
    else
      let slope := (n * sum_xy values - sum_x values * sum_y values) / denominator
      let intercept := (sum_y values - slope * sum_x values) / n
      (slope, intercept)

/-- `standard_deviation(values)`: population standard deviation
(`sqrt` of the mean squared deviation), 0 for the empty list. -/
def standard_deviation (sqrt : ℚ → ℚ) (values : List ℚ) : ℚ :=
  if values.length = 0 then 0
  else
    let avg := values.sum / (values.length : ℚ)
    let square_diffs := values.map (fun value => (value - avg) ^ 2)
    sqrt (square_diffs.sum / (square_diffs.length : ℚ))

/-- `calculate_confidence(values)`: `round(clamp(100 - cv·100, 0, 100))` where
`cv` is the coefficient of variation; 0 for an empty list or zero mean.
The Python function returns the integer produced by `round`; here it is
returned as that integer cast into `ℚ`. -/
def calculate_confidence (sqrt : ℚ → ℚ) (values : List ℚ) : ℚ :=
  if values.length = 0 then 0
  else
    let std_dev := standard_deviation sqrt values
    let avg := values.sum / (values.length : ℚ)
    if avg = 0 then 0
    else
      let cv := std_dev / avg
      let confidence := max 0 (min 100 (100 - cv * 100))
      ((pyRound confidence : ℤ) : ℚ)

/-- The trend label computed inside `predict_next_value`. -/
inductive Trend
  | increasing
  | decreasing
  | stable
deriving DecidableEq

/-- The dictionary returned by `predict_next_value`. -/
structure PointPrediction where
  predicted_value : ℚ
  confidence : ℚ
  trend : Trend
  slope : ℚ
  intercept : ℚ
deriving DecidableEq

/-- `predict_next_value(historical_values)`: degenerate result for fewer than
3 points; otherwise predicts index `len(values)` on the fitted line, clamped
at 0, with CV-based confidence and a slope-vs-mean trend label.  The trend
conditions are tested in the source's order: `slope > avg*0.05` first, then
`slope < -avg*0.05`, else stable. -/
def predict_next_value (sqrt : ℚ → ℚ) (historical_values : List ℚ) : PointPrediction :=
  if historical_values.length < 3 then
    { predicted_value := 0, confidence := 0, trend := Trend.stable, slope := 0, intercept := 0 }
  else
    let fit := linear_regression historical_values
    let slope := fit.1
    let intercept := fit.2
    let next_index : ℚ := historical_values.length
    let predicted_value := slope * next_index + intercept
    let confidence := calculate_confidence sqrt historical_values
    let avg := historical_values.sum / (historical_values.length : ℚ)
    let trend :=
      if avg * (5/100) < slope then Trend.increasing
      else if slope < -(avg * (5/100)) then Trend.decreasing
      else Trend.stable
    { predicted_value := max 0 predicted_value, confidence := confidence,
      trend := trend, slope := slope, intercept := intercept }

/-- One entry of the `forecasts` list built by `forecast_revenue`. -/
structure PeriodForecast where
  period : ℕ
  value : ℚ
  confidence : ℚ
deriving DecidableEq

/-- The dictionary returned by `forecast_revenue`. -/
structure ForecastResult where
  forecasts : List PeriodForecast
  total_predicted : ℚ
  slope : ℚ
  intercept : ℚ
deriving DecidableEq

/-- `forecast_revenue(historical_values, periods_ahead)`: one shared fit,
standard deviation and mean, then a loop over periods `1..periods_ahead`
(the Python `for i in range(1, periods_ahead + 1)` is the fold over
`List.range' 1 periods_ahead`) appending a rounded per-period entry and
accumulating the unrounded predicted value into the total, which is rounded
once at the end. -/
def forecast_revenue (sqrt : ℚ → ℚ) (historical_values : List ℚ)
    (periods_ahead : ℕ) : ForecastResult :=
  let fit := linear_regression historical_values
  let slope := fit.1
  let intercept := fit.2
  let std_dev := standard_deviation sqrt historical_values
  let avg : ℚ :=
    if historical_values.isEmpty then 0
    else historical_values.sum / (historical_values.length : ℚ)
  let step := fun (acc : List PeriodForecast × ℚ) (i : ℕ) =>
    let next_index : ℚ := (historical_values.length : ℚ) + (i : ℚ) - 1
    let predicted_value := max 0 (slope * next_index + intercept)
    let confidence : ℚ :=
      if avg ≠ 0 then
        let cv := std_dev / avg
        let base_confidence := max 0 (min 100 (100 - cv * 100))
        ((pyRound (base_confidence * (9/10) ^ (i - 1)) : ℤ) : ℚ)
      else 0
    (acc.1 ++ [{ period := i, value := roundTo2 predicted_value, confidence := confidence }],
     acc.2 + predicted_value)
  let res := (List.range' 1 periods_ahead).foldl step ([], 0)
  { forecasts := res.1, total_predicted := roundTo2 res.2,
    slope := slope, intercept := intercept }

/-! ## Derived forms and helper lemmas -/

/-- The unrounded value predicted by `forecast_revenue` for period `i`:
`max(0, slope·(len + i - 1) + intercept)` for the shared fit. -/
def periodPredicted (values : List ℚ) (i : ℕ) : ℚ :=
  max 0 ((linear_regression values).1 * ((values.length : ℚ) + (i : ℚ) - 1) +
    (linear_regression values).2)

/-- The confidence attached by `forecast_revenue` to period `i`:
`round(clamp(100 - cv·100, 0, 100) · 0.9^(i-1))` when the mean is nonzero,
`0` otherwise. -/
def periodConfidence (sqrt : ℚ → ℚ) (values : List ℚ) (i : ℕ) : ℚ :=
  if (if values.isEmpty then (0 : ℚ) else values.sum / (values.length : ℚ)) ≠ 0 then
    ((pyRound ((max 0 (min 100 (100 - standard_deviation sqrt values /
        (if values.isEmpty then (0 : ℚ) else values.sum / (values.length : ℚ)) * 100))) *
      (9 / 10) ^ (i - 1)) : ℤ) : ℚ)
  else 0

/-- The full entry appended by `forecast_revenue` for period `i`. -/
def forecastEntry (sqrt : ℚ → ℚ) (values : List ℚ) (i : ℕ) : PeriodForecast :=
  { period := i, value := roundTo2 (periodPredicted values i),
    confidence := periodConfidence sqrt values i }

/-- A fold that appends one element and accumulates one summand per step is an
`append` of a `map` together with a `sum`. -/
lemma foldl_append_sum {α β : Type} (f : α → β) (g : α → ℚ) (l : List α) :
    ∀ (acc : List β) (t : ℚ),
      l.foldl (fun a i => (a.1 ++ [f i], a.2 + g i)) (acc, t)
        = (acc ++ l.map f, t + (l.map g).sum) := by
  induction l with
  | nil => intro acc t; simp
  | cons x xs ih =>
      intro acc t
      simp only [List.foldl_cons, List.map_cons, List.sum_cons]
      rw [ih]
      simp [add_assoc]

/-- Closed form of `forecast_revenue`: the loop produces the mapped list of
per-period entries and the rounded sum of the unrounded per-period values. -/
lemma forecast_revenue_eq (sqrt : ℚ → ℚ) (hv : List ℚ) (p : ℕ) :
    forecast_revenue sqrt hv p =
      { forecasts := (List.range' 1 p).map (forecastEntry sqrt hv),
        total_predicted := roundTo2 (((List.range' 1 p).map (periodPredicted hv)).sum),
        slope := (linear_regression hv).1,
        intercept := (linear_regression hv).2 } := by
  have h := foldl_append_sum (forecastEntry sqrt hv) (periodPredicted hv)
    (List.range' 1 p) [] 0
  have h2 : forecast_revenue sqrt hv p =
      { forecasts := ((List.range' 1 p).foldl
          (fun a i => (a.1 ++ [forecastEntry sqrt hv i], a.2 + periodPredicted hv i))
          ([], 0)).1,
        total_predicted := roundTo2 (((List.range' 1 p).foldl
          (fun a i => (a.1 ++ [forecastEntry sqrt hv i], a.2 + periodPredicted hv i))
          ([], 0)).2),
        slope := (linear_regression hv).1,
        intercept := (linear_regression hv).2 } := rfl
  rw [h2, h]
  simp

/-- The guarded mean of `forecast_revenue` agrees with the bare rational
quotient: on the empty list both sides are `0`. -/
lemma forecastAvg_eq (values : List ℚ) :
    (if values.isEmpty then (0 : ℚ) else values.sum / (values.length : ℚ))
      = values.sum / (values.length : ℚ) := by
  split_ifs with h
  · rw [List.isEmpty_iff.1 h]; simp
  · rfl

/-! ## Bounds and monotonicity of `pyRound` -/

/-- `pyRound` never goes below the floor. -/
lemma floor_le_pyRound (q : ℚ) : ⌊q⌋ ≤ pyRound q := by
  simp only [pyRound]
  split_ifs <;> omega

/-- `pyRound` never exceeds the floor plus one. -/
lemma pyRound_le_floor_add_one (q : ℚ) : pyRound q ≤ ⌊q⌋ + 1 := by
  simp only [pyRound]
  split_ifs <;> omega

/-- `pyRound` is at least any integer lower bound of its argument. -/
lemma le_pyRound_of_le {n : ℤ} {q : ℚ} (h : (n : ℚ) ≤ q) : n ≤ pyRound q := by
  have hf : n ≤ ⌊q⌋ := Int.le_floor.2 h
  have := floor_le_pyRound q
  omega

/-- `pyRound` is at most any integer upper bound of its argument. -/
lemma pyRound_le_of_le {n : ℤ} {q : ℚ} (h : q ≤ (n : ℚ)) : pyRound q ≤ n := by
  have hf : ⌊q⌋ ≤ n := by
    have := Int.floor_le_floor h
    simpa using this
  simp only [pyRound]
  split_ifs with h1 h2 h3
  · exact hf
  · push_neg at h1
    have hfl : (⌊q⌋ : ℚ) + 1/2 ≤ q := by linarith
    have hlt : (⌊q⌋ : ℚ) < (n : ℚ) := by linarith
    have : ⌊q⌋ < n := by exact_mod_cast hlt
    omega
  · exact hf
  · push_neg at h1
    have hfl : (⌊q⌋ : ℚ) + 1/2 ≤ q := by linarith
    have hlt : (⌊q⌋ : ℚ) < (n : ℚ) := by linarith
    have : ⌊q⌋ < n := by exact_mod_cast hlt
    omega

/-- `pyRound` is monotone. -/
lemma pyRound_mono {q r : ℚ} (h : q ≤ r) : pyRound q ≤ pyRound r := by
  have hf : ⌊q⌋ ≤ ⌊r⌋ := Int.floor_le_floor h
  rcases lt_or_eq_of_le hf with hlt | heq
  · have h1 := pyRound_le_floor_add_one q
    have h2 := floor_le_pyRound r
    omega
  · simp only [pyRound]
    rw [← heq]
    split_ifs <;> first | omega | linarith

/-- The clamped base confidence lies in `[0, 100]`. -/
lemma clamp_mem {x : ℚ} : 0 ≤ max 0 (min 100 x) ∧ max 0 (min 100 x) ≤ 100 :=
  ⟨le_max_left 0 _, max_le (by norm_num) (min_le_left 100 x)⟩

/-- `periodConfidence` with the guarded mean replaced by the bare quotient. -/
lemma periodConfidence_eq (sqrt : ℚ → ℚ) (values : List ℚ) (i : ℕ) :
    periodConfidence sqrt values i =
      if values.sum / (values.length : ℚ) ≠ 0 then
        ((pyRound ((max 0 (min 100 (100 - standard_deviation sqrt values /
            (values.sum / (values.length : ℚ)) * 100))) * (9 / 10) ^ (i - 1)) : ℤ) : ℚ)
      else 0 := by
  unfold periodConfidence
  rw [forecastAvg_eq]

/-- Per-period forecast confidence is an integer between 0 and 100. -/
lemma periodConfidence_bounds (sqrt : ℚ → ℚ) (values : List ℚ) (i : ℕ) :
    ∃ k : ℤ, periodConfidence sqrt values i = (k : ℚ) ∧ 0 ≤ k ∧ k ≤ 100 := by
  rw [periodConfidence_eq]
  split_ifs with h
  · refine ⟨_, rfl, ?_, ?_⟩
    · apply le_pyRound_of_le
      push_cast
      exact mul_nonneg clamp_mem.1 (pow_nonneg (by norm_num) _)
    · apply pyRound_le_of_le
      push_cast
      calc max 0 (min 100 (100 - standard_deviation sqrt values /
            (values.sum / (values.length : ℚ)) * 100)) * ((9:ℚ)/10) ^ (i - 1)
          ≤ 100 * 1 := mul_le_mul clamp_mem.2
            (pow_le_one₀ (by norm_num) (by norm_num)) (pow_nonneg (by norm_num) _)
            (by norm_num)
        _ = 100 := by norm_num
  · exact ⟨0, by norm_num⟩

/-- Per-period forecast confidence does not increase with the period index. -/
lemma periodConfidence_anti (sqrt : ℚ → ℚ) (values : List ℚ) {i j : ℕ}
    (hij : i ≤ j) :
    periodConfidence sqrt values j ≤ periodConfidence sqrt values i := by
  rw [periodConfidence_eq, periodConfidence_eq]
  split_ifs with h
  · have key : pyRound ((max 0 (min 100 (100 - standard_deviation sqrt values /
        (values.sum / (values.length : ℚ)) * 100))) * (9 / 10) ^ (j - 1))
      ≤ pyRound ((max 0 (min 100 (100 - standard_deviation sqrt values /
        (values.sum / (values.length : ℚ)) * 100))) * (9 / 10) ^ (i - 1)) := by
      apply pyRound_mono
      apply mul_le_mul_of_nonneg_left _ clamp_mem.1
      exact pow_le_pow_of_le_one (by norm_num) (by norm_num) (Nat.sub_le_sub_right hij 1)
    exact_mod_cast key
  · exact le_refl 0

/-- The confidence returned by `calculate_confidence` is an integer in `[0, 100]`. -/
lemma calculate_confidence_bounds (sqrt : ℚ → ℚ) (values : List ℚ) :
    ∃ k : ℤ, calculate_confidence sqrt values = (k : ℚ) ∧ 0 ≤ k ∧ k ≤ 100 := by
  simp only [calculate_confidence]
  split_ifs with h1 h2
  · exact ⟨0, by norm_num⟩
  · exact ⟨0, by norm_num⟩
  · refine ⟨_, rfl, ?_, ?_⟩
    · apply le_pyRound_of_le
      push_cast
      exact clamp_mem.1
    · apply pyRound_le_of_le
      push_cast
      exact clamp_mem.2

/-! ## Claim theorems -/

/-- C3: for fewer than 2 elements `linear_regression` returns `(0, 0)`; for
`n ≥ 2` with nonzero denominator `D = n·ΣX² - (ΣX)²` it returns
`slope = (n·ΣXY - ΣX·ΣY)/D` and `intercept = (ΣY - slope·ΣX)/n`; a zero
denominator also yields `(0, 0)`.  The function is total, so it never raises. -/
theorem linear_regression_spec (values : List ℚ) :
    (values.length < 2 → linear_regression values = (0, 0)) ∧
    (2 ≤ values.length →
      (values.length : ℚ) * sum_x2 values - sum_x values * sum_x values = 0 →
      linear_regression values = (0, 0)) ∧
    (2 ≤ values.length →
      (values.length : ℚ) * sum_x2 values - sum_x values * sum_x values ≠ 0 →
      (linear_regression values).1 =
        ((values.length : ℚ) * sum_xy values - sum_x values * sum_y values) /
          ((values.length : ℚ) * sum_x2 values - sum_x values * sum_x values) ∧
      (linear_regression values).2 =
        (sum_y values - (linear_regression values).1 * sum_x values) /
          (values.length : ℚ)) := by
  refine ⟨?_, ?_, ?_⟩
  · intro h
    simp only [linear_regression]
    rw [if_pos h]
  · intro h hD
    simp only [linear_regression]
    rw [if_neg (by omega), if_pos hD]
  · intro h hD
    have hlr : linear_regression values =
        (((values.length : ℚ) * sum_xy values - sum_x values * sum_y values) /
            ((values.length : ℚ) * sum_x2 values - sum_x values * sum_x values),
         (sum_y values -
            ((values.length : ℚ) * sum_xy values - sum_x values * sum_y values) /
              ((values.length : ℚ) * sum_x2 values - sum_x values * sum_x values) *
              sum_x values) / (values.length : ℚ)) := by
      simp only [linear_regression]
      rw [if_neg (by omega), if_neg hD]
    rw [hlr]
    exact ⟨rfl, rfl⟩

/-- Witness for C3: the one-element list falls in the degenerate branch and a
two-element list gets the closed-form slope. -/
theorem linear_regression_spec_witness :
    linear_regression [(5 : ℚ)] = (0, 0) ∧
    (linear_regression [(0 : ℚ), 1]).1 =
      (([(0 : ℚ), 1].length : ℚ) * sum_xy [(0 : ℚ), 1] -
          sum_x [(0 : ℚ), 1] * sum_y [(0 : ℚ), 1]) /
        (([(0 : ℚ), 1].length : ℚ) * sum_x2 [(0 : ℚ), 1] -
          sum_x [(0 : ℚ), 1] * sum_x [(0 : ℚ), 1]) :=
  ⟨(linear_regression_spec [(5 : ℚ)]).1 (by norm_num),
   ((linear_regression_spec [(0 : ℚ), 1]).2.2 (by norm_num)
      (by norm_num [sum_x, sum_x2, List.range_succ])).1⟩

/-- C8: for fewer than 3 elements `predict_next_value` returns the fixed
degenerate `PointPrediction`, independently of the element values, and does
not raise (it is a total function). -/
theorem predict_next_value_short (sqrt : ℚ → ℚ) (values : List ℚ)
    (h : values.length < 3) :
    predict_next_value sqrt values =
      { predicted_value := 0, confidence := 0, trend := Trend.stable,
        slope := 0, intercept := 0 } := by
  simp only [predict_next_value]
  rw [if_pos h]

/-- Witness for C8: a two-element list with nonzero values. -/
theorem predict_next_value_short_witness :
    predict_next_value (fun q => q) [(7 : ℚ), 8] =
      { predicted_value := 0, confidence := 0, trend := Trend.stable,
        slope := 0, intercept := 0 } :=
  predict_next_value_short (fun q => q) [(7 : ℚ), 8] (by norm_num)

/-- C5: every per-period forecast value and every predicted next value is
non-negative, for any series and any horizon: negative extrapolations are
clamped to 0 before rounding, and two-decimal rounding preserves the sign. -/
theorem forecast_and_predict_nonneg (sqrt : ℚ → ℚ) (values : List ℚ) (p : ℕ) :
    (∀ f ∈ (forecast_revenue sqrt values p).forecasts, 0 ≤ f.value) ∧
    0 ≤ (predict_next_value sqrt values).predicted_value := by
  constructor
  · intro f hf
    rw [forecast_revenue_eq] at hf
    simp only [List.mem_map] at hf
    obtain ⟨i, _, rfl⟩ := hf
    show 0 ≤ roundTo2 (periodPredicted values i)
    unfold roundTo2
    apply div_nonneg _ (by norm_num)
    have h0 : (0 : ℤ) ≤ pyRound (periodPredicted values i * 100) := by
      apply le_pyRound_of_le
      push_cast
      exact mul_nonneg (le_max_left 0 _) (by norm_num)
    exact_mod_cast h0
  · simp only [predict_next_value]
    split_ifs
    all_goals first | exact le_refl 0 | exact le_max_left 0 _

/-- Witness for C5: a concrete declining series whose line extrapolates
negative still yields a non-negative first forecast value. -/
theorem forecast_and_predict_nonneg_witness :
    0 ≤ PeriodForecast.value { period := 1, value := 0, confidence := 0 } := by
  have hmem : ({ period := 1, value := 0, confidence := 0 } : PeriodForecast) ∈
      (forecast_revenue (fun q => q) [(4 : ℚ), 2, 0] 1).forecasts := by
    norm_num [forecast_revenue, linear_regression, standard_deviation, roundTo2,
      pyRound, List.range', sum_x, sum_y, sum_xy, sum_x2, List.range_succ, List.enum]
  exact (forecast_and_predict_nonneg (fun q => q) [(4 : ℚ), 2, 0] 1).1 _ hmem

/-- C4: `calculate_confidence` always returns an integer in `[0, 100]`, and so
does every per-period confidence produced by `forecast_revenue`. -/
theorem confidence_in_range (sqrt : ℚ → ℚ) (values : List ℚ) (p : ℕ) :
    (∃ k : ℤ, calculate_confidence sqrt values = (k : ℚ) ∧ 0 ≤ k ∧ k ≤ 100) ∧
    (∀ f ∈ (forecast_revenue sqrt values p).forecasts,
      ∃ k : ℤ, f.confidence = (k : ℚ) ∧ 0 ≤ k ∧ k ≤ 100) := by
  refine ⟨calculate_confidence_bounds sqrt values, ?_⟩
  intro f hf
  rw [forecast_revenue_eq] at hf
  simp only [List.mem_map] at hf
  obtain ⟨i, _, rfl⟩ := hf
  exact periodConfidence_bounds sqrt values i

/-- Witness for C4: the confidence of the first forecast entry of a concrete
series is an integer between 0 and 100. -/
theorem confidence_in_range_witness :
    ∃ k : ℤ, PeriodForecast.confidence { period := 1, value := 1, confidence := 100 }
      = (k : ℚ) ∧ 0 ≤ k ∧ k ≤ 100 := by
  have hmem : ({ period := 1, value := 1, confidence := 100 } : PeriodForecast) ∈
      (forecast_revenue (fun q => q) [(1 : ℚ), 1] 1).forecasts := by
    norm_num [forecast_revenue, linear_regression, standard_deviation, roundTo2,
      pyRound, List.range', sum_x, sum_y, sum_xy, sum_x2, List.range_succ, List.enum]
  exact (confidence_in_range (fun q => q) [(1 : ℚ), 1] 1).2 _ hmem

/-- C1: for any series and any `periodsAhead ≥ 1`, `total_predicted` is the
sum of the UNROUNDED per-period values `max(0, slope·(len+i-1)+intercept)`
for `i = 1..periodsAhead`, rounded to two decimals once at the end. -/
theorem total_predicted_rounds_unrounded_sum (sqrt : ℚ → ℚ) (values : List ℚ)
    (p : ℕ) (hp : 1 ≤ p) :
    (forecast_revenue sqrt values p).total_predicted =
      roundTo2 (((List.range' 1 p).map (fun (i : ℕ) =>
        max 0 ((linear_regression values).1 * ((values.length : ℚ) + (i : ℚ) - 1) +
          (linear_regression values).2))).sum) := by
  rw [forecast_revenue_eq]
  rfl

/-- Witness for C1 on the series `[1, 2, 3]` with two periods ahead. -/
theorem total_predicted_rounds_unrounded_sum_witness :
    (forecast_revenue (fun q => q) [(1 : ℚ), 2, 3] 2).total_predicted =
      roundTo2 (((List.range' 1 2).map (fun (i : ℕ) =>
        max 0 ((linear_regression [(1 : ℚ), 2, 3]).1 * (([(1 : ℚ), 2, 3].length : ℚ) + (i : ℚ) - 1) +
          (linear_regression [(1 : ℚ), 2, 3]).2))).sum) :=
  total_predicted_rounds_unrounded_sum (fun q => q) [(1 : ℚ), 2, 3] 2 (by norm_num)

/-- C2: for `1 ≤ i ≤ periodsAhead` the `i`-th forecast entry has period `i` and
value `max(0, slope·(len+i-1)+intercept)` rounded to two decimals, where
`(slope, intercept)` is the single shared fit, which is also returned in the
result's `slope` and `intercept` fields. -/
theorem forecast_entry_spec (sqrt : ℚ → ℚ) (values : List ℚ) (p i : ℕ)
    (h1 : 1 ≤ i) (h2 : i ≤ p) :
    ((forecast_revenue sqrt values p).forecasts[i - 1]?).map PeriodForecast.period =
      some i ∧
    ((forecast_revenue sqrt values p).forecasts[i - 1]?).map PeriodForecast.value =
      some (roundTo2 (max 0 ((linear_regression values).1 *
        ((values.length : ℚ) + (i : ℚ) - 1) + (linear_regression values).2))) ∧
    (forecast_revenue sqrt values p).slope = (linear_regression values).1 ∧
    (forecast_revenue sqrt values p).intercept = (linear_regression values).2 := by
  rw [forecast_revenue_eq]
  have hidx : (List.range' 1 p)[i - 1]? = some i := by
    rw [List.getElem?_range' 1 1 (by omega)]
    congr 1
    omega
  refine ⟨?_, ?_, rfl, rfl⟩
  · simp [hidx, forecastEntry]
  · simp [hidx, forecastEntry, periodPredicted]

/-- Witness for C2: first entry of a two-period forecast over `[1, 1]`. -/
theorem forecast_entry_spec_witness :
    ((forecast_revenue (fun q => q) [(1 : ℚ), 1] 2).forecasts[0]?).map PeriodForecast.period =
      some 1 ∧
    ((forecast_revenue (fun q => q) [(1 : ℚ), 1] 2).forecasts[0]?).map PeriodForecast.value =
      some (roundTo2 (max 0 ((linear_regression [(1 : ℚ), 1]).1 *
        (([(1 : ℚ), 1].length : ℚ) + ((1 : ℕ) : ℚ) - 1) + (linear_regression [(1 : ℚ), 1]).2))) ∧
    (forecast_revenue (fun q => q) [(1 : ℚ), 1] 2).slope = (linear_regression [(1 : ℚ), 1]).1 ∧
    (forecast_revenue (fun q => q) [(1 : ℚ), 1] 2).intercept = (linear_regression [(1 : ℚ), 1]).2 :=
  forecast_entry_spec (fun q => q) [(1 : ℚ), 1] 2 1 (by norm_num) (by norm_num)

/-- C6: with a nonzero mean and `periodsAhead ≥ 2`, the per-period confidences
are non-increasing in the period index: each period multiplies the clamped
base by one more factor of `0.9` before rounding, and rounding is monotone. -/
theorem forecast_confidence_nonincreasing (sqrt : ℚ → ℚ) (values : List ℚ)
    (p : ℕ) (havg : values.sum / (values.length : ℚ) ≠ 0) (hp : 2 ≤ p)
    (a b : ℕ) (fa fb : PeriodForecast) (hab : a ≤ b)
    (ha : (forecast_revenue sqrt values p).forecasts[a]? = some fa)
    (hb : (forecast_revenue sqrt values p).forecasts[b]? = some fb) :
    fb.confidence ≤ fa.confidence := by
  rw [forecast_revenue_eq] at ha hb
  have hblt : b < p := by
    by_contra hcon
    push_neg at hcon
    rw [List.getElem?_eq_none (by simpa using hcon)] at hb
    exact Option.noConfusion hb
  have halt : a < p := lt_of_le_of_lt hab hblt
  rw [List.getElem?_map, List.getElem?_range' 1 1 halt, Option.map_some'] at ha
  rw [List.getElem?_map, List.getElem?_range' 1 1 hblt, Option.map_some'] at hb
  obtain rfl := (Option.some.inj ha).symm
  obtain rfl := (Option.some.inj hb).symm
  show periodConfidence sqrt values (1 + 1 * b) ≤ periodConfidence sqrt values (1 + 1 * a)
  exact periodConfidence_anti sqrt values (by omega)

/-- Witness for C6: over `[1, 1]` the period-2 confidence 90 does not exceed
the period-1 confidence 100. -/
theorem forecast_confidence_nonincreasing_witness :
    PeriodForecast.confidence { period := 2, value := 1, confidence := 90 } ≤
      PeriodForecast.confidence { period := 1, value := 1, confidence := 100 } := by
  have h1 : (forecast_revenue (fun q => q) [(1 : ℚ), 1] 2).forecasts[0]? =
      some { period := 1, value := 1, confidence := 100 } := by
    norm_num [forecast_revenue, linear_regression, standard_deviation, roundTo2,
      pyRound, List.range', sum_x, sum_y, sum_xy, sum_x2, List.range_succ, List.enum]
  have h2 : (forecast_revenue (fun q => q) [(1 : ℚ), 1] 2).forecasts[1]? =
      some { period := 2, value := 1, confidence := 90 } := by
    norm_num [forecast_revenue, linear_regression, standard_deviation, roundTo2,
      pyRound, List.range', sum_x, sum_y, sum_xy, sum_x2, List.range_succ, List.enum]
  exact forecast_confidence_nonincreasing (fun q => q) [(1 : ℚ), 1] 2
    (by norm_num) (by norm_num) 0 1 _ _ (by norm_num) h1 h2

/-- C10: for a series of length ≥ 3 and any horizon ≥ 1, the first forecast
entry's value is `predict_next_value`'s predicted value rounded to two
decimals, and the forecast's slope and intercept equal the point
prediction's: both use the same fit and index `len(series)` for period 1. -/
theorem forecast_first_matches_predict (sqrt : ℚ → ℚ) (values : List ℚ) (p : ℕ)
    (h3 : 3 ≤ values.length) (hp : 1 ≤ p) :
    ((forecast_revenue sqrt values p).forecasts[0]?).map PeriodForecast.value =
      some (roundTo2 (predict_next_value sqrt values).predicted_value) ∧
    (forecast_revenue sqrt values p).slope = (predict_next_value sqrt values).slope ∧
    (forecast_revenue sqrt values p).intercept = (predict_next_value sqrt values).intercept := by
  have hpn : (predict_next_value sqrt values).predicted_value =
      max 0 ((linear_regression values).1 * (values.length : ℚ) +
        (linear_regression values).2) ∧
      (predict_next_value sqrt values).slope = (linear_regression values).1 ∧
      (predict_next_value sqrt values).intercept = (linear_regression values).2 := by
    simp only [predict_next_value]
    rw [if_neg (by omega)]
    exact ⟨rfl, rfl, rfl⟩
  rw [forecast_revenue_eq, hpn.1, hpn.2.1, hpn.2.2]
  refine ⟨?_, rfl, rfl⟩
  rw [List.getElem?_map, List.getElem?_range' 1 1 (by omega), Option.map_some',
    Option.map_some']
  show some (roundTo2 (periodPredicted values (1 + 1 * 0))) = _
  norm_num [periodPredicted]

/-- Witness for C10 on the series `[1, 2, 3]` with one period ahead. -/
theorem forecast_first_matches_predict_witness :
    ((forecast_revenue (fun q => q) [(1 : ℚ), 2, 3] 1).forecasts[0]?).map PeriodForecast.value =
      some (roundTo2 (predict_next_value (fun q => q) [(1 : ℚ), 2, 3]).predicted_value) ∧
    (forecast_revenue (fun q => q) [(1 : ℚ), 2, 3] 1).slope =
      (predict_next_value (fun q => q) [(1 : ℚ), 2, 3]).slope ∧
    (forecast_revenue (fun q => q) [(1 : ℚ), 2, 3] 1).intercept =
      (predict_next_value (fun q => q) [(1 : ℚ), 2, 3]).intercept :=
  forecast_first_matches_predict (fun q => q) [(1 : ℚ), 2, 3] 1 (by norm_num) (by norm_num)

/-- C7 (amended): for a series of length ≥ 3 with mean `avg` and fitted slope
`s`, the trend conditions are evaluated in order, so: increasing iff
`s > avg·0.05`; decreasing iff `s ≤ avg·0.05` and `s < -avg·0.05`; stable iff
`s ≤ avg·0.05` and `s ≥ -avg·0.05`.  When `avg ≥ 0` a slope exactly equal to
`avg·0.05` is stable, and when `avg = 0` stable holds exactly for `s = 0`.
(The original biconditional for decreasing fails when `avg < 0`, where both
raw conditions can hold and the increasing branch wins.) -/
theorem trend_classification_spec (sqrt : ℚ → ℚ) (values : List ℚ)
    (h3 : 3 ≤ values.length) :
    ((predict_next_value sqrt values).trend = Trend.increasing ↔
      (values.sum / (values.length : ℚ)) * (5 / 100) < (linear_regression values).1) ∧
    ((predict_next_value sqrt values).trend = Trend.decreasing ↔
      ((linear_regression values).1 ≤ (values.sum / (values.length : ℚ)) * (5 / 100) ∧
       (linear_regression values).1 < -((values.sum / (values.length : ℚ)) * (5 / 100)))) ∧
    ((predict_next_value sqrt values).trend = Trend.stable ↔
      ((linear_regression values).1 ≤ (values.sum / (values.length : ℚ)) * (5 / 100) ∧
       -((values.sum / (values.length : ℚ)) * (5 / 100)) ≤ (linear_regression values).1)) ∧
    (0 ≤ values.sum / (values.length : ℚ) →
      (linear_regression values).1 = (values.sum / (values.length : ℚ)) * (5 / 100) →
      (predict_next_value sqrt values).trend = Trend.stable) ∧
    (values.sum / (values.length : ℚ) = 0 →
      ((predict_next_value sqrt values).trend = Trend.stable ↔
        (linear_regression values).1 = 0)) := by
  have htr : (predict_next_value sqrt values).trend =
      if (values.sum / (values.length : ℚ)) * (5 / 100) < (linear_regression values).1 then
        Trend.increasing
      else if (linear_regression values).1 <
          -((values.sum / (values.length : ℚ)) * (5 / 100)) then
        Trend.decreasing
      else Trend.stable := by
    simp only [predict_next_value]
    rw [if_neg (by omega)]
  rw [htr]
  split_ifs with hA hB
  · refine ⟨by simp [hA], ?_, ?_, ?_, ?_⟩
    · constructor
      · intro hcon; exact hcon.elim
      · rintro ⟨hc1, _⟩; exact absurd hA (not_lt.2 hc1)
    · constructor
      · intro hcon; exact hcon.elim
      · rintro ⟨hc1, _⟩; exact absurd hA (not_lt.2 hc1)
    · intro _ heq; exact absurd hA (by rw [heq]; exact lt_irrefl _)
    · intro h0
      constructor
      · intro hcon; exact hcon.elim
      · intro hs0; rw [h0] at hA; rw [hs0] at hA; norm_num at hA
  · refine ⟨?_, ?_, ?_, ?_, ?_⟩
    · constructor
      · intro hcon; exact hcon.elim
      · intro hcond; exact absurd hcond hA
    · exact iff_of_true rfl ⟨not_lt.1 hA, hB⟩
    · constructor
      · intro hcon; exact hcon.elim
      · rintro ⟨_, hc2⟩; exact absurd hB (not_lt.2 hc2)
    · intro hnn heq
      exfalso
      rw [heq] at hB
      nlinarith [hB, hnn]
    · intro h0
      constructor
      · intro hcon; exact hcon.elim
      · intro hs0; rw [h0] at hB; rw [hs0] at hB; norm_num at hB
  · refine ⟨?_, ?_, ?_, ?_, ?_⟩
    · constructor
      · intro hcon; exact hcon.elim
      · intro hcond; exact absurd hcond hA
    · constructor
      · intro hcon; exact hcon.elim
      · rintro ⟨_, hc2⟩; exact absurd hc2 hB
    · exact iff_of_true rfl ⟨not_lt.1 hA, not_lt.1 hB⟩
    · intro _ _; rfl
    · intro h0
      rw [h0] at hA hB
      constructor
      · intro _
        push_neg at hA hB
        norm_num at hA hB
        exact le_antisymm hA hB
      · intro _; rfl

/-- Witness for C7 (amended): `[10, 20, 30]` has slope 10 above the threshold
`avg·0.05 = 1`, so the trend is increasing. -/
theorem trend_classification_spec_witness :
    (predict_next_value (fun q => q) [(10 : ℚ), 20, 30]).trend = Trend.increasing :=
  (trend_classification_spec (fun q => q) [(10 : ℚ), 20, 30] (by norm_num)).1.mpr
    (by norm_num [linear_regression, sum_x, sum_y, sum_xy, sum_x2,
      List.range_succ, List.enum])

/-- Counterexample for C7 as stated: on `[-1, -1, -1]` the mean is `-1` and
the slope is `0`, so the claim's condition `s < -avg·0.05` holds, yet the
trend is increasing (the increasing branch is tested first and `0 > -0.05`),
refuting the biconditional "decreasing iff `s < -avg·0.05`". -/
theorem trend_classification_claim_cex :
    ¬ (((predict_next_value (fun q : ℚ => q) [-1, -1, -1]).trend = Trend.decreasing) ↔
      ((linear_regression [(-1 : ℚ), -1, -1]).1 <
        -(([(-1 : ℚ), -1, -1].sum / ([(-1 : ℚ), -1, -1].length : ℚ)) * (5 / 100)))) := by
  intro hiff
  have h1 : (predict_next_value (fun q : ℚ => q) [-1, -1, -1]).trend = Trend.increasing := by
    norm_num [predict_next_value, linear_regression, calculate_confidence,
      standard_deviation, sum_x, sum_y, sum_xy, sum_x2, List.range_succ, List.enum]
  have h2 : (linear_regression [(-1 : ℚ), -1, -1]).1 <
      -(([(-1 : ℚ), -1, -1].sum / ([(-1 : ℚ), -1, -1].length : ℚ)) * (5 / 100)) := by
    norm_num [linear_regression, sum_x, sum_y, sum_xy, sum_x2, List.range_succ, List.enum]
  have h3 := hiff.mpr h2
  rw [h1] at h3
  exact Trend.noConfusion h3

/-- C9 (amended): `forecast_revenue` enforces no minimum series length.  For
any `periodsAhead ≥ 1` an empty or 1-element series yields a non-error result
with slope 0, intercept 0 and every per-period value 0.  Every per-period
confidence is 0 for the empty series (its mean is treated as 0); for a
1-element series `[c]` with `c ≠ 0` the standard deviation is `sqrt 0 = 0`,
so the per-period confidence is `round(100·0.9^(i-1))` — not 0.
(The original claim asserted confidence 0 for 1-element series as well.) -/
theorem forecast_short_series_degenerate (sqrt : ℚ → ℚ) (h0 : sqrt 0 = 0)
    (c : ℚ) (p : ℕ) (hp : 1 ≤ p) :
    (forecast_revenue sqrt [] p).slope = 0 ∧
    (forecast_revenue sqrt [] p).intercept = 0 ∧
    (∀ f ∈ (forecast_revenue sqrt [] p).forecasts, f.value = 0 ∧ f.confidence = 0) ∧
    (forecast_revenue sqrt [c] p).slope = 0 ∧
    (forecast_revenue sqrt [c] p).intercept = 0 ∧
    (∀ f ∈ (forecast_revenue sqrt [c] p).forecasts, f.value = 0) ∧
    (c ≠ 0 → ∀ f ∈ (forecast_revenue sqrt [c] p).forecasts,
      f.confidence = ((pyRound (100 * (9 / 10) ^ (f.period - 1)) : ℤ) : ℚ)) := by
  have hlr_nil : linear_regression [] = (0, 0) := by norm_num [linear_regression]
  have hlr_one : linear_regression [c] = (0, 0) := by norm_num [linear_regression]
  have hr0 : roundTo2 0 = 0 := by norm_num [roundTo2, pyRound]
  have hsd : standard_deviation sqrt [c] = 0 := by
    simp [standard_deviation, h0]
  refine ⟨?_, ?_, ?_, ?_, ?_, ?_, ?_⟩
  · rw [forecast_revenue_eq, hlr_nil]
  · rw [forecast_revenue_eq, hlr_nil]
  · intro f hf
    rw [forecast_revenue_eq] at hf
    simp only [List.mem_map] at hf
    obtain ⟨i, _, rfl⟩ := hf
    constructor
    · show roundTo2 (periodPredicted [] i) = 0
      rw [show periodPredicted [] i = 0 by simp [periodPredicted, hlr_nil], hr0]
    · show periodConfidence sqrt [] i = 0
      simp [periodConfidence_eq]
  · rw [forecast_revenue_eq, hlr_one]
  · rw [forecast_revenue_eq, hlr_one]
  · intro f hf
    rw [forecast_revenue_eq] at hf
    simp only [List.mem_map] at hf
    obtain ⟨i, _, rfl⟩ := hf
    show roundTo2 (periodPredicted [c] i) = 0
    rw [show periodPredicted [c] i = 0 by simp [periodPredicted, hlr_one], hr0]
  · intro hc f hf
    rw [forecast_revenue_eq] at hf
    simp only [List.mem_map] at hf
    obtain ⟨i, _, rfl⟩ := hf
    show periodConfidence sqrt [c] i =
      ((pyRound (100 * (9 / 10) ^ (i - 1)) : ℤ) : ℚ)
    rw [periodConfidence_eq, hsd]
    simp [hc]

/-- Witness for C9 (amended): with the identity as the abstract square root
(`sqrt 0 = 0` as for the real square root), the one-period forecast of the
series `[5]` has slope 0 and its first confidence is `round(100·0.9⁰)`. -/
theorem forecast_short_series_degenerate_witness :
    (forecast_revenue (fun q => q) [(5 : ℚ)] 1).slope = 0 ∧
    PeriodForecast.confidence { period := 1, value := 0, confidence := 100 } =
      ((pyRound (100 * (9 / 10) ^ ((1 : ℕ) - 1)) : ℤ) : ℚ) := by
  have h := forecast_short_series_degenerate (fun q => q) rfl (5 : ℚ) 1 (by norm_num)
  refine ⟨h.2.2.2.1, ?_⟩
  have hmem : ({ period := 1, value := 0, confidence := 100 } : PeriodForecast) ∈
      (forecast_revenue (fun q => q) [(5 : ℚ)] 1).forecasts := by
    norm_num [forecast_revenue, linear_regression, standard_deviation, roundTo2,
      pyRound, List.range', sum_x, sum_y, sum_xy, sum_x2, List.range_succ, List.enum]
  exact h.2.2.2.2.2.2 (by norm_num) _ hmem

/-- Counterexample for C9 as stated: the 1-element series `[5]` forecast one
period ahead has per-period confidence 100, not 0 (its mean is 5 ≠ 0 and its
standard deviation is 0, so the clamped base is 100). -/
theorem forecast_one_element_claim_cex :
    (forecast_revenue (fun q : ℚ => q) [(5 : ℚ)] 1).forecasts.map
      PeriodForecast.confidence = [(100 : ℚ)] ∧ (100 : ℚ) ≠ 0 := by
  refine ⟨?_, by norm_num⟩
  norm_num [forecast_revenue, linear_regression, standard_deviation, roundTo2,
    pyRound, List.range', sum_x, sum_y, sum_xy, sum_x2, List.range_succ, List.enum]
